import Mathlib

/-!
# The Render component of amp-render 1.0

A shallow embedding of `RenderWithRef` from
`extensions/amp-render/1.0/component.js` and theorems about its
fetch / cancellation / refresh / render-derivation behaviour.

The component is a function component with hooks.  Its behaviour over time is
embedded as a step function on an explicit component state:

* `data` is the `useState` cell,
* `cleanup` is the cleanup closure registered by the last run of the
  `useEffect` (it names the invocation whose local `cancelled` it sets),
* `pending` holds the promises returned by `getJson` that have not settled,
  each with the closure variables its `.then` / `.catch` handlers captured
  (promises are numbered in the order `getJson` returned them),
* `log` records, in order, every call the component makes to something it was
  handed (`getJson`, the four callbacks), every `setData`, and every exception
  that leaves the effect or `refresh()` synchronously.

Callbacks are observers: a call to one is recorded and returns normally, and
`setData` does not throw.  Hence in `p.then(f).catch(g)` the handler `g` runs
exactly when `p` itself rejects.  `getJson` may throw before it returns.
-/

namespace AmpRender

/-! ## JavaScript values -/

/-- JavaScript values, as far as the component inspects them.  Objects and
functions carry a reference, which is what `===` compares.  `nan` stands for
the number NaN; the other numbers are represented by integers, which is enough
for truthiness. -/
inductive JsVal where
  | undefined
  | null
  | bool (b : Bool)
  | nan
  | num (n : Int)
  | str (s : String)
  | func (ref : Nat)
  | obj (ref : Nat) (fields : List (String × JsVal))

/-- Truthiness, as used by `!x`, `x && y` and `x ? y : z`. -/
def JsVal.truthy : JsVal → Bool
  | .undefined => false
  | .null => false
  | .bool b => b
  | .nan => false
  | .num n => decide (n ≠ 0)
  | .str s => decide (s ≠ "")
  | .func _ => true
  | .obj _ _ => true

/-- The test `typeof v == "object"`. -/
def JsVal.typeofObject : JsVal → Bool
  | .null => true
  | .obj _ _ => true
  | _ => false

/-- The test `k in v` for an object `v` (false on a value without properties;
the component only evaluates it on a truthy value of type object). -/
def JsVal.hasKey (k : String) : JsVal → Bool
  | .obj _ fields => fields.any fun kv => decide (kv.1 = k)
  | _ => false

/-- Strict equality `a === b`: primitives by value (NaN equals nothing),
objects and functions by reference. -/
def JsVal.strictEq : JsVal → JsVal → Bool
  | .undefined, .undefined => true
  | .null, .null => true
  | .bool a, .bool b => decide (a = b)
  | .num a, .num b => decide (a = b)
  | .str a, .str b => decide (a = b)
  | .func a, .func b => decide (a = b)
  | .obj a _, .obj b _ => decide (a = b)
  | _, _ => false

/-- The reference of the module constant `DEFAULT_DATA`. -/
def defaultDataRef : Nat := 0

/-- Source line 38: `const DEFAULT_DATA = {};`, an empty object allocated once per module. -/
def DEFAULT_DATA : JsVal := .obj defaultDataRef []

/-- A value is fresh when it is not the very object `DEFAULT_DATA`.  The
constant is private to the module and is never handed to `getJson` or to
`render`, so every value a fetch produces is fresh. -/
def JsVal.fresh : JsVal → Bool
  | .obj r _ => decide (r ≠ defaultDataRef)
  | _ => true

/-- The fields of a value (none for a value that is not an object); two
objects are equal by content when their fields agree. -/
def JsVal.fieldsOf : JsVal → List (String × JsVal)
  | .obj _ fs => fs
  | _ => []

/-! ## Props, observations, state -/

/-- A `getJson` prop: the identity of the function (what the dependency arrays
compare) and on which arguments a call throws before returning a promise.  When
it does not throw, it returns a new pending promise. -/
structure GetJson where
  ident : Nat
  throwsOn : String → Option Bool → Option JsVal

/-- The props that `RenderWithRef` destructures (lines 46-56).  A callback is
given by its identity; `none` is an absent callback. -/
structure Props where
  src : String
  getJson : GetJson
  render : JsVal → JsVal
  ariaLiveValue : String
  onLoading : Option Nat
  onReady : Option Nat
  onRefresh : Option Nat
  onError : Option Nat

/-- What the component does to the outside, in order. -/
inductive Obs where
  | onLoading (cb : Nat)
  | onReady (cb : Nat)
  | onRefresh (cb : Nat)
  | onError (cb : Nat) (e : JsVal)
  | getJson (fn : Nat) (src : String) (shouldRefresh : Option Bool)
  | setData (d : JsVal)
  | threw (e : JsVal)

/-- An optional call `cb?.(...)`: nothing when the callback is absent. -/
def optCall (cb : Option Nat) (mk : Nat → Obs) : List Obs :=
  match cb with
  | none => []
  | some c => [mk c]

/-- The closure variables captured by the handlers attached to a promise. -/
inductive Handlers where
  | mountFetch (cancelled : Bool) (onError : Option Nat)
  | refreshFetch (onReady : Option Nat) (onError : Option Nat)

/-- The statement `cancelled = true` of a cleanup closure (lines 80-82), on
the closure variables of the invocation it belongs to.  `refresh` has no such
variable. -/
def Handlers.cancel : Handlers → Handlers
  | .mountFetch _ onError => .mountFetch true onError
  | .refreshFetch onReady onError => .refreshFetch onReady onError

/-- The promises returned by `getJson` that have not settled yet, by the
order in which they were created: `none` for a promise that does not exist or
has settled. -/
abbrev PendingMap := Nat → Option Handlers

/-- Set the entry of promise `i`. -/
def setAt (m : PendingMap) (i : Nat) (v : Option Handlers) : PendingMap :=
  fun j => if j = i then v else m j

/-- Life cycle of one component instance. -/
inductive Phase where
  | initial
  | mounted (p : Props)
  | unmounted

/-- State of one component instance. -/
structure State where
  phase : Phase
  data : JsVal
  cleanup : Option Nat
  pending : PendingMap
  nextId : Nat
  log : List Obs

/-- Before the first render: `useState(DEFAULT_DATA)` (line 61), nothing fetched. -/
def init : State :=
  { phase := .initial, data := DEFAULT_DATA, cleanup := none, pending := fun _ => none,
    nextId := 0, log := [] }

/-- How a promise settles. -/
inductive Settle where
  | resolve (d : JsVal)
  | reject (e : JsVal)

/-- A child of the mount node. -/
inductive Child where
  | element (tag : String)
  | text (content : String)

/-- The DOM node passed to the ref callback. -/
structure Node where
  children : List Child

/-- The DOM property `firstElementChild`: the first child that is an element. -/
def Node.firstElementChild (n : Node) : Option Child :=
  n.children.find? fun c => match c with
    | .element _ => true
    | .text _ => false

/-- What can happen to a component instance. -/
inductive Event where
  | render (p : Props)
  | unmount
  | refresh
  | settle (i : Nat) (r : Settle)
  | refFn (node : Option Node)

/-! ## The component -/

/-- The dependency array `[getJson, src, onError, onLoading]` of the effect
(line 83) differs between two renders. -/
def depsChanged (old new : Props) : Bool :=
  old.getJson.ident != new.getJson.ident || old.src != new.src ||
    old.onError != new.onError || old.onLoading != new.onLoading

/-- Run the registered cleanup of the effect, if any, and forget it. -/
def runCleanup (s : State) : State :=
  match s.cleanup with
  | none => s
  | some i =>
    { s with pending := setAt s.pending i ((s.pending i).map Handlers.cancel), cleanup := none }

/-- The effect body, lines 63-82. -/
def runEffect (p : Props) (s : State) : State :=
  if p.src = "" then s
  else
    let log1 := s.log ++ optCall p.onLoading Obs.onLoading ++
      [Obs.getJson p.getJson.ident p.src none]
    match p.getJson.throwsOn p.src none with
    | some e => { s with log := log1 ++ [Obs.threw e] }
    | none =>
      { s with
        log := log1
        pending := setAt s.pending s.nextId (some (.mountFetch false p.onError))
        cleanup := some s.nextId
        nextId := s.nextId + 1 }

/-- The callback `refresh`, lines 85-95. -/
def refresh (p : Props) (s : State) : State :=
  let log1 := s.log ++ optCall p.onRefresh Obs.onRefresh ++
    [Obs.getJson p.getJson.ident p.src (some true)]
  match p.getJson.throwsOn p.src (some true) with
  | some e => { s with log := log1 ++ [Obs.threw e] }
  | none =>
    { s with
      log := log1
      pending := setAt s.pending s.nextId (some (.refreshFetch p.onReady p.onError))
      nextId := s.nextId + 1 }

/-- The state setter `setData`. -/
def setData (d : JsVal) (s : State) : State :=
  { s with data := d, log := s.log ++ [Obs.setData d] }

/-- The handlers attached to a promise, run when it settles: lines 72-79 for
the effect, lines 88-94 for `refresh`. -/
def settleWith (h : Handlers) (r : Settle) (s : State) : State :=
  match h, r with
  | .mountFetch cancelled _, .resolve d => if !cancelled then setData d s else s
  | .mountFetch _ onError, .reject e =>
    { s with log := s.log ++ optCall onError fun c => Obs.onError c e }
  | .refreshFetch onReady _, .resolve d =>
    let s1 := setData d s
    { s1 with log := s1.log ++ optCall onReady Obs.onReady }
  | .refreshFetch _ onError, .reject e =>
    { s with log := s.log ++ optCall onError fun c => Obs.onError c e }

/-- Modelled from the spec: `useRenderer` of `#preact/component`, which is not
part of the file.  With no render function the render output is null; otherwise
the render function is invoked with the current data. -/
def useRenderer (renderer : Option (JsVal → JsVal)) (data : JsVal) : JsVal :=
  match renderer with
  | none => .null
  | some f => f data

/-- First argument of `useRenderer` on line 110:
`data === DEFAULT_DATA ? null : render`. -/
def rendererArg (render : JsVal → JsVal) (data : JsVal) : Option (JsVal → JsVal) :=
  if data.strictEq DEFAULT_DATA then none else some render

/-- The constant `rendered`, line 110. -/
def rendered (render : JsVal → JsVal) (data : JsVal) : JsVal :=
  useRenderer (rendererArg render data) data

/-- Truthiness of `isHtml`, lines 111-112:
`rendered && typeof rendered == "object" && "__html" in rendered`. -/
def isHtml (r : JsVal) : Bool :=
  r.truthy && r.typeofObject && r.hasKey "__html"

/-- The props the component passes to `Wrapper`, lines 125-132. -/
structure WrapperProps where
  dangerouslySetInnerHTML : JsVal
  ariaLive : String
  children : JsVal

/-- The element returned by the component for a render output `r`. -/
def wrapperProps (ariaLiveValue : String) (r : JsVal) : WrapperProps :=
  { dangerouslySetInnerHTML := if isHtml r then r else .null
    ariaLive := ariaLiveValue
    children := if isHtml r then .null else r }

/-- What the component returns in a given state of its props and data. -/
def view (p : Props) (data : JsVal) : WrapperProps :=
  wrapperProps p.ariaLiveValue (rendered p.render data)

/-- The ref callback `refFn`, lines 114-122: the calls it makes. -/
def refFn (r : JsVal) (onReady : Option Nat) (node : Option Node) : List Obs :=
  match node with
  | none => []
  | some n =>
    if (n.firstElementChild).isNone || !r.truthy then []
    else optCall onReady Obs.onReady

/-- One event of the life of a component instance.

* `render p`: the component function runs with props `p`; the effect runs on
  the first render and whenever its dependency array changed, after the cleanup
  of its previous run.  A component that was unmounted is not rendered again.
* `unmount`: the cleanup of the effect runs.
* `refresh`: the owner calls `refresh()` on the imperative handle (lines
  97-104), which exists while the component is mounted.
* `settle i r`: promise `i`, if pending, settles and its handlers run.
* `refFn node`: the framework calls the ref callback of the current render. -/
def step (s : State) : Event → State
  | .render p =>
    match s.phase with
    | .initial => runEffect p { s with phase := .mounted p }
    | .mounted old =>
      if depsChanged old p then runEffect p (runCleanup { s with phase := .mounted p })
      else { s with phase := .mounted p }
    | .unmounted => s
  | .unmount =>
    match s.phase with
    | .mounted _ => runCleanup { s with phase := .unmounted }
    | _ => s
  | .refresh =>
    match s.phase with
    | .mounted p => refresh p s
    | _ => s
  | .settle i r =>
    match s.pending i with
    | none => s
    | some h => settleWith h r { s with pending := setAt s.pending i none }
  | .refFn node =>
    match s.phase with
    | .mounted p => { s with log := s.log ++ refFn (rendered p.render s.data) p.onReady node }
    | _ => s

/-- A sequence of events, from a given state. -/
def run (s : State) (es : List Event) : State :=
  es.foldl step s

/-! ## Vocabulary of the statements -/

/-- The event settles promise `i`. -/
def Event.settles (i : Nat) : Event → Bool
  | .settle j _ => decide (j = i)
  | _ => false

/-- The `onError` captured by the handlers of a promise. -/
def Handlers.onError : Handlers → Option Nat
  | .mountFetch _ onError => onError
  | .refreshFetch _ onError => onError

/-- The handlers belong to a fetch started by the effect. -/
def Handlers.isMount : Handlers → Bool
  | .mountFetch _ _ => true
  | .refreshFetch _ _ => false

/-- The local `cancelled` of a fetch started by the effect (false for `refresh`,
which has none). -/
def Handlers.isCancelled : Handlers → Bool
  | .mountFetch c _ => c
  | .refreshFetch _ _ => false

/-- The observation is a call of `getJson`. -/
def Obs.isGetJson : Obs → Bool
  | .getJson _ _ _ => true
  | _ => false

/-- The observation is a call of one of `onLoading`, `onReady`, `onError`. -/
def Obs.isLifecycleCall : Obs → Bool
  | .onLoading _ => true
  | .onReady _ => true
  | .onError _ _ => true
  | _ => false

/-- The observation is a call of `setData`. -/
def Obs.isSetData : Obs → Bool
  | .setData _ => true
  | _ => false

/-- The observation is a call of `onRefresh`. -/
def Obs.isOnRefresh : Obs → Bool
  | .onRefresh _ => true
  | _ => false

/-- The observation is a call of `onReady`. -/
def Obs.isOnReady : Obs → Bool
  | .onReady _ => true
  | _ => false

/-- The observation is a call of `onError`. -/
def Obs.isOnError : Obs → Bool
  | .onError _ _ => true
  | _ => false

/-- The observation is an exception leaving the effect or `refresh()`. -/
def Obs.isThrew : Obs → Bool
  | .threw _ => true
  | _ => false

/-- Property access `v.k`: `undefined` when the key is absent. -/
def JsVal.getProp (k : String) : JsVal → JsVal
  | .obj _ fields =>
    match fields.find? fun kv => decide (kv.1 = k) with
    | some kv => kv.2
    | none => .undefined
  | _ => .undefined

/-- Well-formedness of a reachable state: promises and the registered cleanup
were created before `nextId`, every effect-started fetch other than the one
the registered cleanup belongs to has its `cancelled` set, and a cleanup is
registered only while the component is mounted. -/
def WF (s : State) : Prop :=
  (∀ i h, s.pending i = some h → i < s.nextId) ∧
  (∀ i, s.cleanup = some i → i < s.nextId) ∧
  (∀ i c oe, s.pending i = some (.mountFetch c oe) → s.cleanup ≠ some i → c = true) ∧
  ((∀ p, s.phase ≠ .mounted p) → s.cleanup = none)

/-- Promise `i` was created, and if it is still pending it belongs to an
effect-started fetch whose `cancelled` is set. -/
def Stale (i : Nat) (s : State) : Prop :=
  i < s.nextId ∧ ∀ h, s.pending i = some h → ∃ oe, h = .mountFetch true oe

/-- Promise `i` is pending with the handlers `h`, up to its `cancelled` having
been set since. -/
def Awaits (i : Nat) (h : Handlers) (s : State) : Prop :=
  i < s.nextId ∧ (s.pending i = some h ∨ s.pending i = some h.cancel)

/-- Promise `i` was created and has settled. -/
def Settled (i : Nat) (s : State) : Prop :=
  i < s.nextId ∧ s.pending i = none

/-- Nothing was thrown so far, and the `getJson` of the mounted component
returns a promise on every call. -/
def NoThrow (s : State) : Prop :=
  s.log.any Obs.isThrew = false ∧
    ∀ p, s.phase = .mounted p → ∀ src flag, p.getJson.throwsOn src flag = none

/-- The events of a component that is only ever rendered with the empty source
and never refreshed: renders with src "", the unmount, settlements. -/
def Event.onEmptySrcMountPath : Event → Bool
  | .render p => decide (p.src = "")
  | .unmount => true
  | .settle _ _ => true
  | .refresh => false
  | .refFn _ => false

/-- Nothing has happened yet: empty log, initial data, no promise, no cleanup. -/
def Untouched (s : State) : Prop :=
  s.log = [] ∧ s.data = DEFAULT_DATA ∧ (∀ i, s.pending i = none) ∧ s.cleanup = none

/-- The props in force when the event starts a fetch: those of the render, or
for `refresh` those of the mounted component. -/
def Event.propsAt (s : State) : Event → Option Props
  | .render p => some p
  | .refresh =>
    match s.phase with
    | .mounted p => some p
    | _ => none
  | _ => none

/-! ## Concrete props for the examples -/

/-- A `getJson` that returns a promise on every call. -/
def getJsonOk : GetJson :=
  { ident := 1, throwsOn := fun _ _ => none }

/-- A `getJson` that throws before it returns a promise. -/
def getJsonThrowing : GetJson :=
  { ident := 2, throwsOn := fun _ _ => some (.str "boom") }

/-- A `getJson` that returns a promise for the effect and throws when called
by `refresh()`. -/
def getJsonThrowingOnRefresh : GetJson :=
  { ident := 3, throwsOn := fun _ flag => if flag = some true then some (.str "boom") else none }

/-- Props with all four callbacks supplied and the identity as render function. -/
def sampleProps (src : String) (g : GetJson) : Props :=
  { src := src, getJson := g, render := fun d => d, ariaLiveValue := "polite",
    onLoading := some 10, onReady := some 11, onRefresh := some 12, onError := some 13 }

end AmpRender

namespace AmpRender

/-! ## Runs -/

theorem run_nil (s : State) : run s [] = s := rfl

theorem run_cons (s : State) (e : Event) (es : List Event) :
    run s (e :: es) = run (step s e) es := rfl

theorem run_append (s : State) (es fs : List Event) :
    run s (es ++ fs) = run (run s es) fs := by
  simp [run, List.foldl_append]

/-- An invariant of `step` that holds initially holds after every run. -/
theorem run_induction (P : State → Prop) (hstep : ∀ s e, P s → P (step s e))
    (s : State) (hs : P s) (es : List Event) : P (run s es) := by
  induction es generalizing s with
  | nil => exact hs
  | cons e es ih => exact ih (step s e) (hstep s e hs)

/-! ## Shape of the operations -/

theorem runCleanup_nextId (s : State) : (runCleanup s).nextId = s.nextId := by
  unfold runCleanup
  split <;> rfl

theorem runCleanup_cleanup (s : State) : (runCleanup s).cleanup = none := by
  unfold runCleanup
  split
  · assumption
  · rfl

theorem runCleanup_data (s : State) : (runCleanup s).data = s.data := by
  unfold runCleanup
  split <;> rfl

theorem runCleanup_log (s : State) : (runCleanup s).log = s.log := by
  unfold runCleanup
  split <;> rfl

theorem runCleanup_phase (s : State) : (runCleanup s).phase = s.phase := by
  unfold runCleanup
  split <;> rfl

/-- After the cleanup a promise is pending exactly when it was, with the same
handlers or with `cancelled` set. -/
theorem runCleanup_pending (s : State) (i : Nat) :
    (runCleanup s).pending i = s.pending i ∨
      (s.cleanup = some i ∧ (runCleanup s).pending i = (s.pending i).map Handlers.cancel) := by
  unfold runCleanup
  split
  · exact Or.inl rfl
  · next c hc =>
    by_cases h : i = c
    · subst h
      right
      exact ⟨hc, by simp [setAt]⟩
    · left
      simp [setAt, h]

theorem le_nextId_runEffect (p : Props) (s : State) : s.nextId ≤ (runEffect p s).nextId := by
  unfold runEffect
  split
  · exact le_rfl
  · split
    · exact le_rfl
    · exact Nat.le_succ _

theorem le_nextId_refresh (p : Props) (s : State) : s.nextId ≤ (refresh p s).nextId := by
  unfold refresh
  split
  · exact le_rfl
  · exact Nat.le_succ _

theorem settleWith_nextId (h : Handlers) (r : Settle) (s : State) :
    (settleWith h r s).nextId = s.nextId := by
  cases h <;> cases r <;> simp [settleWith, setData]
  split <;> rfl

theorem settleWith_pending (h : Handlers) (r : Settle) (s : State) :
    (settleWith h r s).pending = s.pending := by
  cases h <;> cases r <;> simp [settleWith, setData]
  split <;> rfl

theorem settleWith_cleanup (h : Handlers) (r : Settle) (s : State) :
    (settleWith h r s).cleanup = s.cleanup := by
  cases h <;> cases r <;> simp [settleWith, setData]
  split <;> rfl

theorem settleWith_phase (h : Handlers) (r : Settle) (s : State) :
    (settleWith h r s).phase = s.phase := by
  cases h <;> cases r <;> simp [settleWith, setData]
  split <;> rfl

/-- No event lowers the promise counter. -/
theorem le_nextId_step (s : State) (e : Event) : s.nextId ≤ (step s e).nextId := by
  cases e with
  | render p =>
    simp only [step]
    split
    · exact le_nextId_runEffect p { s with phase := .mounted p }
    · split
      · have h1 := le_nextId_runEffect p (runCleanup { s with phase := .mounted p })
        have h2 := runCleanup_nextId { s with phase := .mounted p }
        exact le_trans (le_of_eq h2.symm) h1
      · exact le_rfl
    · exact le_rfl
  | unmount =>
    simp only [step]
    split
    · exact le_of_eq (runCleanup_nextId { s with phase := .unmounted }).symm
    · exact le_rfl
  | refresh =>
    simp only [step]
    split
    · exact le_nextId_refresh _ _
    · exact le_rfl
  | settle i r =>
    simp only [step]
    split
    · exact le_rfl
    · rw [settleWith_nextId]
  | refFn node =>
    simp only [step]
    split <;> exact le_rfl

/-- How one event changes the entry of promise `i`: not at all, or the cleanup
sets its `cancelled`, or `i` is the promise the event creates, or the event
settles `i`. -/
theorem step_pending (s : State) (e : Event) (i : Nat) :
    (step s e).pending i = s.pending i ∨
    (s.cleanup = some i ∧ (step s e).pending i = (s.pending i).map Handlers.cancel) ∨
    (i = s.nextId ∧ (step s e).nextId = s.nextId + 1) ∨
    (e.settles i = true ∧ (step s e).pending i = none) := by
  have eff : ∀ (p : Props) (t : State),
      (runEffect p t).pending i = t.pending i ∨
        (i = t.nextId ∧ (runEffect p t).nextId = t.nextId + 1) := by
    intro p t
    unfold runEffect
    split
    · exact Or.inl rfl
    · split
      · exact Or.inl rfl
      · by_cases h : i = t.nextId
        · exact Or.inr ⟨h, rfl⟩
        · exact Or.inl (by simp [setAt, h])
  cases e with
  | render p =>
    simp only [step]
    split
    · rcases eff p { s with phase := .mounted p } with h | h
      · exact Or.inl h
      · exact Or.inr (Or.inr (Or.inl h))
    · split
      · rcases eff p (runCleanup { s with phase := .mounted p }) with h | h
        · rcases runCleanup_pending { s with phase := .mounted p } i with h2 | h2
          · exact Or.inl (h.trans h2)
          · exact Or.inr (Or.inl ⟨h2.1, h.trans h2.2⟩)
        · rw [runCleanup_nextId] at h
          exact Or.inr (Or.inr (Or.inl h))
      · exact Or.inl rfl
    · exact Or.inl rfl
  | unmount =>
    simp only [step]
    split
    · rcases runCleanup_pending { s with phase := .unmounted } i with h2 | h2
      · exact Or.inl h2
      · exact Or.inr (Or.inl h2)
    · exact Or.inl rfl
  | refresh =>
    simp only [step]
    split
    · next p hp =>
      unfold refresh
      split
      · exact Or.inl rfl
      · by_cases h : i = s.nextId
        · exact Or.inr (Or.inr (Or.inl ⟨h, rfl⟩))
        · exact Or.inl (by simp [setAt, h])
    · exact Or.inl rfl
  | settle j r =>
    simp only [step]
    split
    · exact Or.inl rfl
    · rw [settleWith_pending]
      by_cases h : i = j
      · subst h
        exact Or.inr (Or.inr (Or.inr ⟨by simp [Event.settles], by simp [setAt]⟩))
      · exact Or.inl (by simp [setAt, h])
  | refFn node =>
    simp only [step]
    split <;> exact Or.inl rfl

/-- An event that is not a render or a `refresh()` creates no promise. -/
theorem step_nextId_of_no_start (s : State) (e : Event) (h : e.propsAt s = none) :
    (step s e).nextId = s.nextId := by
  cases e with
  | render p => simp [Event.propsAt] at h
  | unmount =>
    simp only [step]
    split
    · exact runCleanup_nextId { s with phase := .unmounted }
    · rfl
  | refresh =>
    simp only [step]
    split
    · next p hp => simp [Event.propsAt, hp] at h
    · rfl
  | settle j r =>
    simp only [step]
    split
    · rfl
    · rw [settleWith_nextId]
  | refFn node =>
    simp only [step]
    split <;> rfl

/-! ## Well-formedness is invariant -/

theorem wf_init : WF init := by
  refine ⟨?_, ?_, ?_, ?_⟩ <;> simp [init]

/-- A render keeps a state well formed as far as its phase goes. -/
theorem wf_setMounted (s : State) (p : Props) (h : WF s) :
    WF { s with phase := .mounted p } :=
  ⟨h.1, h.2.1, h.2.2.1, fun hi => absurd rfl (hi p)⟩

/-- After the cleanup every pending effect-started fetch has `cancelled` set
and no cleanup is registered. -/
theorem wf_runCleanup (s : State)
    (h1 : ∀ i h, s.pending i = some h → i < s.nextId)
    (h3 : ∀ i c oe, s.pending i = some (.mountFetch c oe) → s.cleanup ≠ some i → c = true) :
    WF (runCleanup s) ∧
      ∀ i c oe, (runCleanup s).pending i = some (.mountFetch c oe) → c = true := by
  unfold runCleanup
  split
  · next hc =>
    refine ⟨⟨h1, ?_, h3, fun _ => hc⟩, ?_⟩
    · intro i hi
      rw [hc] at hi
      cases hi
    · intro i c oe hp
      exact h3 i c oe hp (by simp [hc])
  · next j hc =>
    have key : ∀ i c oe, setAt s.pending j ((s.pending j).map Handlers.cancel) i
        = some (.mountFetch c oe) → c = true := by
      intro i c oe hp
      by_cases hij : i = j
      · subst hij
        simp only [setAt, if_true] at hp
        cases hq : s.pending i with
        | none => simp [hq] at hp
        | some q =>
          cases q <;> simp [hq, Handlers.cancel] at hp
          exact hp.1
      · simp only [setAt, if_neg hij] at hp
        exact h3 i c oe hp (by simp [hc]; exact fun h => hij h.symm)
    refine ⟨⟨?_, ?_, ?_, ?_⟩, key⟩
    · intro i q hp
      by_cases hij : i = j
      · subst hij
        simp only [setAt, if_true] at hp
        cases hq : s.pending i with
        | none => simp [hq] at hp
        | some q0 => exact h1 i q0 hq
      · simp only [setAt, if_neg hij] at hp
        exact h1 i q hp
    · intro i hi
      cases hi
    · intro i c oe hp _
      exact key i c oe hp
    · intro _
      rfl

theorem wf_runEffect (p : Props) (s : State) (h : WF s)
    (hc : ∀ i c oe, s.pending i = some (.mountFetch c oe) → c = true)
    (hph : ∃ q, s.phase = .mounted q) : WF (runEffect p s) := by
  obtain ⟨h1, h2, h3, h4⟩ := h
  obtain ⟨q, hq⟩ := hph
  unfold runEffect
  split
  · exact ⟨h1, h2, h3, h4⟩
  · split
    · exact ⟨h1, h2, h3, h4⟩
    · refine ⟨?_, ?_, ?_, ?_⟩
      · intro i q hp
        by_cases hi : i = s.nextId
        · simp [hi]
        · simp only [setAt, if_neg hi] at hp
          exact Nat.lt_succ_of_lt (h1 i q hp)
      · intro i hi
        simp only [Option.some.injEq] at hi
        simp [← hi]
      · intro i c oe hp hne
        have hi : i ≠ s.nextId := fun hi => hne (by simp [hi])
        simp only [setAt, if_neg hi] at hp
        exact hc i c oe hp
      · intro hi
        exact absurd hq (hi q)

theorem wf_refresh (p : Props) (s : State) (h : WF s) (hph : s.phase = .mounted p) :
    WF (refresh p s) := by
  obtain ⟨h1, h2, h3, h4⟩ := h
  unfold refresh
  split
  · exact ⟨h1, h2, h3, h4⟩
  · refine ⟨?_, ?_, ?_, ?_⟩
    · intro i q hp
      by_cases hi : i = s.nextId
      · simp [hi]
      · simp only [setAt, if_neg hi] at hp
        exact Nat.lt_succ_of_lt (h1 i q hp)
    · intro i hi
      exact Nat.lt_succ_of_lt (h2 i hi)
    · intro i c oe hp hne
      by_cases hi : i = s.nextId
      · simp [setAt, hi] at hp
      · simp only [setAt, if_neg hi] at hp
        exact h3 i c oe hp hne
    · intro hi
      exact absurd hph (hi p)

theorem wf_settleWith (q : Handlers) (r : Settle) (s : State) (h : WF s) :
    WF (settleWith q r s) := by
  unfold WF
  rw [settleWith_pending, settleWith_cleanup, settleWith_nextId, settleWith_phase]
  exact h

/-- Every event keeps the state well formed. -/
theorem wf_step (s : State) (e : Event) (h : WF s) : WF (step s e) := by
  cases e with
  | render p =>
    simp only [step]
    split
    · next hph =>
      have hcl : s.cleanup = none := h.2.2.2 (fun q hq => by rw [hph] at hq; cases hq)
      have hw : WF { s with phase := .mounted p } := wf_setMounted s p h
      refine wf_runEffect p _ hw ?_ ⟨p, rfl⟩
      intro i c oe hp
      exact h.2.2.1 i c oe hp (by simp [hcl])
    · split
      · have hcu := wf_runCleanup { s with phase := .mounted p } h.1 h.2.2.1
        refine wf_runEffect p _ hcu.1 hcu.2 ⟨p, ?_⟩
        rw [runCleanup_phase]
      · exact wf_setMounted s p h
    · exact h
  | unmount =>
    simp only [step]
    split
    · exact (wf_runCleanup { s with phase := .unmounted } h.1 h.2.2.1).1
    · exact h
  | refresh =>
    simp only [step]
    split
    · next p hp => exact wf_refresh p s h hp
    · exact h
  | settle j r =>
    simp only [step]
    split
    · exact h
    · refine wf_settleWith _ r _ ?_
      obtain ⟨h1, h2, h3, h4⟩ := h
      refine ⟨?_, h2, ?_, h4⟩
      · intro i q hp
        by_cases hi : i = j
        · simp [setAt, hi] at hp
        · simp only [setAt, if_neg hi] at hp
          exact h1 i q hp
      · intro i c oe hp hne
        by_cases hi : i = j
        · simp [setAt, hi] at hp
        · simp only [setAt, if_neg hi] at hp
          exact h3 i c oe hp hne
  | refFn node =>
    simp only [step]
    split
    · exact h
    · exact h

/-- Every state reached from the initial one is well formed. -/
theorem wf_run (es : List Event) : WF (run init es) :=
  run_induction WF wf_step init wf_init es

/-! ## Promises over time -/

/-- A superseded fetch stays superseded. -/
theorem stale_step (i : Nat) (s : State) (e : Event) (h : Stale i s) : Stale i (step s e) := by
  obtain ⟨hlt, hp⟩ := h
  refine ⟨lt_of_lt_of_le hlt (le_nextId_step s e), ?_⟩
  intro q hq
  rcases step_pending s e i with a | ⟨_, b⟩ | ⟨c, _⟩ | ⟨_, d⟩
  · rw [a] at hq
    exact hp q hq
  · rw [b] at hq
    cases hs : s.pending i with
    | none => simp [hs] at hq
    | some q0 =>
      obtain ⟨oe, rfl⟩ := hp q0 hs
      simp only [hs, Option.map_some', Handlers.cancel, Option.some.injEq] at hq
      exact ⟨oe, hq.symm⟩
  · omega
  · rw [d] at hq
    cases hq

theorem stale_run (i : Nat) (s : State) (es : List Event) (h : Stale i s) :
    Stale i (run s es) :=
  run_induction (Stale i) (fun s e => stale_step i s e) s h es

/-- The resolution of a superseded fetch changes neither the data nor the log. -/
theorem stale_resolve (i : Nat) (s : State) (d : JsVal) (h : Stale i s) :
    (step s (.settle i (.resolve d))).data = s.data ∧
      (step s (.settle i (.resolve d))).log = s.log := by
  simp only [step]
  cases hs : s.pending i with
  | none => exact ⟨rfl, rfl⟩
  | some q =>
    obtain ⟨oe, rfl⟩ := h.2 q hs
    simp [settleWith]

/-- A pending promise stays pending, with the same handlers up to `cancelled`,
through every event that does not settle it. -/
theorem awaits_step (i : Nat) (q : Handlers) (s : State) (e : Event) (h : Awaits i q s)
    (he : e.settles i = false) : Awaits i q (step s e) := by
  obtain ⟨hlt, hp⟩ := h
  refine ⟨lt_of_lt_of_le hlt (le_nextId_step s e), ?_⟩
  rcases step_pending s e i with a | ⟨_, b⟩ | ⟨c, _⟩ | ⟨d, _⟩
  · rw [a]
    exact hp
  · rw [b]
    rcases hp with hp | hp
    · right
      simp [hp]
    · right
      rw [hp]
      cases q <;> simp [Handlers.cancel]
  · omega
  · rw [he] at d
    cases d

theorem awaits_run (i : Nat) (q : Handlers) (s : State) (es : List Event) (h : Awaits i q s)
    (hes : ∀ e ∈ es, e.settles i = false) : Awaits i q (run s es) := by
  induction es generalizing s with
  | nil => exact h
  | cons e es ih =>
    rw [run_cons]
    exact ih (step s e) (awaits_step i q s e h (hes e (List.mem_cons_self e es)))
      (fun x hx => hes x (List.mem_cons_of_mem e hx))

/-- Settling a pending promise removes it and runs its handlers. -/
theorem settle_pending (s : State) (j : Nat) (q : Handlers) (r : Settle)
    (h : s.pending j = some q) :
    step s (.settle j r) = settleWith q r { s with pending := setAt s.pending j none } := by
  simp only [step, h]

/-- A settled promise stays settled, and settling it again does nothing. -/
theorem settled_step (i : Nat) (s : State) (e : Event) (h : Settled i s) :
    Settled i (step s e) := by
  obtain ⟨hlt, hp⟩ := h
  refine ⟨lt_of_lt_of_le hlt (le_nextId_step s e), ?_⟩
  rcases step_pending s e i with a | ⟨_, b⟩ | ⟨c, _⟩ | ⟨_, d⟩
  · rw [a]
    exact hp
  · rw [b, hp]
    rfl
  · omega
  · exact d

theorem settled_run (i : Nat) (s : State) (es : List Event) (h : Settled i s) :
    Settled i (run s es) :=
  run_induction (Settled i) (fun s e => settled_step i s e) s h es

theorem settled_settle (i : Nat) (s : State) (r : Settle) (h : Settled i s) :
    step s (.settle i r) = s := by
  simp [step, h.2]

/-- What an event that creates a promise does: it is a render whose effect
calls `getJson(src)`, or a `refresh()` of a mounted component. -/
theorem step_start (s : State) (e : Event) (h : (step s e).nextId = s.nextId + 1) :
    (∃ p, e = .render p ∧ p.src ≠ "" ∧
      (step s e).pending s.nextId = some (.mountFetch false p.onError) ∧
      (step s e).cleanup = some s.nextId) ∨
    (∃ p, e = .refresh ∧ s.phase = .mounted p ∧
      (step s e).pending s.nextId = some (.refreshFetch p.onReady p.onError)) := by
  have eff : ∀ (p : Props) (t : State), (runEffect p t).nextId = t.nextId + 1 →
      p.src ≠ "" ∧ (runEffect p t).pending t.nextId = some (.mountFetch false p.onError) ∧
        (runEffect p t).cleanup = some t.nextId := by
    intro p t
    unfold runEffect
    split
    · intro h
      simp at h
    · next hsrc =>
      split
      · intro h
        simp at h
      · intro _
        exact ⟨hsrc, by simp [setAt], rfl⟩
  cases e with
  | render p =>
    left
    refine ⟨p, rfl, ?_⟩
    cases hph : s.phase with
    | initial =>
      simp only [step, hph] at h ⊢
      exact eff p { s with phase := .mounted p } h
    | mounted old =>
      simp only [step, hph] at h ⊢
      by_cases hd : depsChanged old p = true
      · simp only [hd, if_true] at h ⊢
        have := eff p (runCleanup { s with phase := .mounted p })
          (by rw [runCleanup_nextId]; exact h)
        rw [runCleanup_nextId] at this
        exact this
      · simp [hd] at h
    | unmounted =>
      simp [step, hph] at h
  | unmount =>
    have := step_nextId_of_no_start s .unmount rfl
    omega
  | refresh =>
    right
    cases hph : s.phase with
    | initial => simp [step, hph] at h
    | unmounted => simp [step, hph] at h
    | mounted p =>
      refine ⟨p, rfl, rfl, ?_⟩
      simp only [step, hph] at h ⊢
      unfold refresh at h ⊢
      cases ht : p.getJson.throwsOn p.src (some true) with
      | some x => simp [ht] at h
      | none => simp [setAt]
  | settle j r =>
    have := step_nextId_of_no_start s (.settle j r) rfl
    omega
  | refFn node =>
    have := step_nextId_of_no_start s (.refFn node) rfl
    omega

/-- Rejection of a pending promise: only the captured `onError` is called, the
data stays, and the promise is settled. -/
theorem reject_of_awaits (i : Nat) (q : Handlers) (s : State) (e : JsVal) (h : Awaits i q s) :
    (step s (.settle i (.reject e))).data = s.data ∧
    (step s (.settle i (.reject e))).log = s.log ++ optCall q.onError (fun c => Obs.onError c e) ∧
    Settled i (step s (.settle i (.reject e))) := by
  obtain ⟨hlt, hp | hp⟩ := h
  · rw [settle_pending s i q _ hp]
    cases q <;> simp [settleWith, Handlers.onError, Settled, hlt, setAt]
  · rw [settle_pending s i q.cancel _ hp]
    cases q <;> simp [settleWith, Handlers.onError, Handlers.cancel, Settled, hlt, setAt]

/-- Resolution of a pending promise of `refresh`: the value is stored, then the
captured `onReady` is called, and the promise is settled. -/
theorem resolve_of_awaits_refresh (i : Nat) (onReady onError : Option Nat) (s : State)
    (d : JsVal) (h : Awaits i (.refreshFetch onReady onError) s) :
    (step s (.settle i (.resolve d))).data = d ∧
    (step s (.settle i (.resolve d))).log
      = s.log ++ [Obs.setData d] ++ optCall onReady Obs.onReady ∧
    Settled i (step s (.settle i (.resolve d))) := by
  have hp : s.pending i = some (.refreshFetch onReady onError) := by
    rcases h.2 with hp | hp
    · exact hp
    · exact hp
  rw [settle_pending s i _ _ hp]
  simp [settleWith, setData, Settled, h.1, setAt]

/-! ## Synchronous exceptions -/

theorem any_isThrew_optCall_onLoading (cb : Option Nat) :
    (optCall cb Obs.onLoading).any Obs.isThrew = false := by
  cases cb <;> simp [optCall, Obs.isThrew]

theorem any_isThrew_optCall_onReady (cb : Option Nat) :
    (optCall cb Obs.onReady).any Obs.isThrew = false := by
  cases cb <;> simp [optCall, Obs.isThrew]

theorem any_isThrew_optCall_onRefresh (cb : Option Nat) :
    (optCall cb Obs.onRefresh).any Obs.isThrew = false := by
  cases cb <;> simp [optCall, Obs.isThrew]

theorem any_isThrew_optCall_onError (cb : Option Nat) (e : JsVal) :
    (optCall cb fun c => Obs.onError c e).any Obs.isThrew = false := by
  cases cb <;> simp [optCall, Obs.isThrew]

theorem settleWith_any_isThrew (q : Handlers) (r : Settle) (s : State) :
    (settleWith q r s).log.any Obs.isThrew = s.log.any Obs.isThrew := by
  cases q <;> cases r <;>
    simp [settleWith, setData, Obs.isThrew, any_isThrew_optCall_onError,
      any_isThrew_optCall_onReady]
  split <;> simp [Obs.isThrew]

/-- While `getJson` returns a promise on every call, no event throws. -/
theorem noThrow_step (s : State) (e : Event) (h : NoThrow s)
    (he : ∀ p, e = .render p → ∀ src flag, p.getJson.throwsOn src flag = none) :
    NoThrow (step s e) := by
  obtain ⟨hlog, hget⟩ := h
  have eff : ∀ (p : Props) (t : State), t.log.any Obs.isThrew = false →
      (∀ src flag, p.getJson.throwsOn src flag = none) → t.phase = .mounted p →
      NoThrow (runEffect p t) := by
    intro p t ht hp hph
    unfold runEffect
    split
    · exact ⟨ht, fun q hq => by rw [hph] at hq; cases hq; exact hp⟩
    · rw [hp]
      refine ⟨?_, fun q hq => ?_⟩
      · simp [ht, any_isThrew_optCall_onLoading, Obs.isThrew]
      · have : t.phase = .mounted q := hq
        rw [hph] at this
        cases this
        exact hp
  cases e with
  | render p =>
    have hp := he p rfl
    cases hph : s.phase with
    | initial =>
      simp only [step, hph]
      exact eff p _ hlog hp rfl
    | mounted old =>
      simp only [step, hph]
      split
      · refine eff p _ ?_ hp ?_
        · rw [runCleanup_log]
          exact hlog
        · rw [runCleanup_phase]
      · exact ⟨hlog, fun q hq => by cases hq; exact hp⟩
    | unmounted =>
      simp only [step, hph]
      exact ⟨hlog, fun q hq => by rw [hph] at hq; cases hq⟩
  | unmount =>
    cases hph : s.phase with
    | mounted old =>
      simp only [step, hph]
      refine ⟨?_, fun q hq => ?_⟩
      · rw [runCleanup_log]
        exact hlog
      · rw [runCleanup_phase] at hq
        cases hq
    | initial =>
      simp only [step, hph]
      exact ⟨hlog, hget⟩
    | unmounted =>
      simp only [step, hph]
      exact ⟨hlog, hget⟩
  | refresh =>
    cases hph : s.phase with
    | mounted p =>
      simp only [step, hph]
      unfold refresh
      rw [hget p hph]
      refine ⟨?_, fun q hq => ?_⟩
      · simp [hlog, any_isThrew_optCall_onRefresh, Obs.isThrew]
      · have : s.phase = .mounted q := hq
        exact hget q this
    | initial =>
      simp only [step, hph]
      exact ⟨hlog, hget⟩
    | unmounted =>
      simp only [step, hph]
      exact ⟨hlog, hget⟩
  | settle j r =>
    simp only [step]
    split
    · exact ⟨hlog, hget⟩
    · refine ⟨?_, fun q hq => ?_⟩
      · rw [settleWith_any_isThrew]
        exact hlog
      · rw [settleWith_phase] at hq
        exact hget q hq
  | refFn node =>
    cases hph : s.phase with
    | mounted p =>
      simp only [step, hph]
      refine ⟨?_, fun q hq => ?_⟩
      · have : (refFn (rendered p.render s.data) p.onReady node).any Obs.isThrew = false := by
          unfold refFn
          split
          · rfl
          · split
            · rfl
            · exact any_isThrew_optCall_onReady _
        simp [hlog, this]
      · have hpq : Phase.mounted p = Phase.mounted q := hq
        cases hpq
        exact hget p hph
    | initial =>
      simp only [step, hph]
      exact ⟨hlog, hget⟩
    | unmounted =>
      simp only [step, hph]
      exact ⟨hlog, hget⟩

theorem noThrow_run (s : State) (es : List Event) (h : NoThrow s)
    (hes : ∀ p, Event.render p ∈ es → ∀ src flag, p.getJson.throwsOn src flag = none) :
    NoThrow (run s es) := by
  induction es generalizing s with
  | nil => exact h
  | cons e es ih =>
    rw [run_cons]
    refine ih (step s e) (noThrow_step s e h ?_) ?_
    · intro p hp
      exact hes p (by rw [hp]; exact List.mem_cons_self _ _)
    · intro p hp
      exact hes p (List.mem_cons_of_mem e hp)

/-! ## Equations of `step` -/

theorem step_render_initial (s : State) (p : Props) (h : s.phase = .initial) :
    step s (.render p) = runEffect p { s with phase := .mounted p } := by
  simp only [step, h]

theorem step_render_mounted (s : State) (p old : Props) (h : s.phase = .mounted old) :
    step s (.render p) =
      if depsChanged old p then runEffect p (runCleanup { s with phase := .mounted p })
      else { s with phase := .mounted p } := by
  simp only [step, h]

theorem step_unmount_mounted (s : State) (old : Props) (h : s.phase = .mounted old) :
    step s .unmount = runCleanup { s with phase := .unmounted } := by
  simp only [step, h]

theorem step_refresh_mounted (s : State) (p : Props) (h : s.phase = .mounted p) :
    step s .refresh = refresh p s := by
  simp only [step, h]

theorem step_refFn_mounted (s : State) (p : Props) (node : Option Node)
    (h : s.phase = .mounted p) :
    step s (.refFn node)
      = { s with log := s.log ++ refFn (rendered p.render s.data) p.onReady node } := by
  simp only [step, h]

theorem step_settle_none (s : State) (j : Nat) (r : Settle) (h : s.pending j = none) :
    step s (.settle j r) = s := by
  simp only [step, h]

/-- Before the first render only a render does anything. -/
theorem step_initial (s : State) (e : Event) (h : s.phase = .initial)
    (he : ∀ p, e ≠ .render p) (hs : ∀ j r, e ≠ .settle j r) : step s e = s := by
  cases e with
  | render p => exact absurd rfl (he p)
  | settle j r => exact absurd rfl (hs j r)
  | unmount => simp only [step, h]
  | refresh => simp only [step, h]
  | refFn node => simp only [step, h]

/-- After the unmount only the settling of a promise does anything. -/
theorem step_unmounted (s : State) (e : Event) (h : s.phase = .unmounted)
    (hs : ∀ j r, e ≠ .settle j r) : step s e = s := by
  cases e with
  | settle j r => exact absurd rfl (hs j r)
  | render p => simp only [step, h]
  | unmount => simp only [step, h]
  | refresh => simp only [step, h]
  | refFn node => simp only [step, h]

/-! ## Data and log -/

theorem any_isSetData_optCall_onLoading (cb : Option Nat) :
    (optCall cb Obs.onLoading).any Obs.isSetData = false := by
  cases cb <;> simp [optCall, Obs.isSetData]

theorem any_isSetData_optCall_onReady (cb : Option Nat) :
    (optCall cb Obs.onReady).any Obs.isSetData = false := by
  cases cb <;> simp [optCall, Obs.isSetData]

theorem any_isSetData_optCall_onRefresh (cb : Option Nat) :
    (optCall cb Obs.onRefresh).any Obs.isSetData = false := by
  cases cb <;> simp [optCall, Obs.isSetData]

theorem any_isSetData_optCall_onError (cb : Option Nat) (e : JsVal) :
    (optCall cb fun c => Obs.onError c e).any Obs.isSetData = false := by
  cases cb <;> simp [optCall, Obs.isSetData]

/-- An event only appends to the log; the data changes only when a promise
resolves, to the resolved value, and then `setData` is among what is appended. -/
theorem step_log_data (s : State) (e : Event) :
    ∃ l, (step s e).log = s.log ++ l ∧
      (((step s e).data = s.data ∧ l.any Obs.isSetData = false) ∨
        (∃ i d, e = .settle i (.resolve d) ∧ (step s e).data = d ∧
          l.any Obs.isSetData = true)) := by
  have eff : ∀ (p : Props) (t : State), ∃ l, (runEffect p t).log = t.log ++ l ∧
      (runEffect p t).data = t.data ∧ l.any Obs.isSetData = false := by
    intro p t
    unfold runEffect
    split
    · exact ⟨[], by simp, rfl, rfl⟩
    · split
      · next x hx =>
        exact ⟨optCall p.onLoading Obs.onLoading ++ [Obs.getJson p.getJson.ident p.src none]
          ++ [Obs.threw x], by simp, rfl,
          by simp [any_isSetData_optCall_onLoading, Obs.isSetData]⟩
      · exact ⟨optCall p.onLoading Obs.onLoading ++ [Obs.getJson p.getJson.ident p.src none],
          by simp, rfl, by simp [any_isSetData_optCall_onLoading, Obs.isSetData]⟩
  cases e with
  | render p =>
    cases hph : s.phase with
    | initial =>
      rw [step_render_initial s p hph]
      obtain ⟨l, h1, h2, h3⟩ := eff p { s with phase := .mounted p }
      exact ⟨l, h1, Or.inl ⟨h2, h3⟩⟩
    | mounted old =>
      rw [step_render_mounted s p old hph]
      split
      · obtain ⟨l, h1, h2, h3⟩ := eff p (runCleanup { s with phase := .mounted p })
        rw [runCleanup_log] at h1
        rw [runCleanup_data] at h2
        exact ⟨l, h1, Or.inl ⟨h2, h3⟩⟩
      · exact ⟨[], by simp, Or.inl ⟨rfl, rfl⟩⟩
    | unmounted =>
      rw [step_unmounted s _ hph (fun j r h => by cases h)]
      exact ⟨[], by simp, Or.inl ⟨rfl, rfl⟩⟩
  | unmount =>
    cases hph : s.phase with
    | mounted old =>
      rw [step_unmount_mounted s old hph]
      refine ⟨[], ?_, Or.inl ⟨?_, rfl⟩⟩
      · rw [runCleanup_log]
        simp
      · rw [runCleanup_data]
    | initial =>
      rw [step_initial s _ hph (fun p h => by cases h) (fun j r h => by cases h)]
      exact ⟨[], by simp, Or.inl ⟨rfl, rfl⟩⟩
    | unmounted =>
      rw [step_unmounted s _ hph (fun j r h => by cases h)]
      exact ⟨[], by simp, Or.inl ⟨rfl, rfl⟩⟩
  | refresh =>
    cases hph : s.phase with
    | mounted p =>
      rw [step_refresh_mounted s p hph]
      unfold refresh
      split
      · next x hx =>
        exact ⟨optCall p.onRefresh Obs.onRefresh ++
          [Obs.getJson p.getJson.ident p.src (some true)] ++ [Obs.threw x], by simp,
          Or.inl ⟨rfl, by simp [any_isSetData_optCall_onRefresh, Obs.isSetData]⟩⟩
      · exact ⟨optCall p.onRefresh Obs.onRefresh ++
          [Obs.getJson p.getJson.ident p.src (some true)], by simp,
          Or.inl ⟨rfl, by simp [any_isSetData_optCall_onRefresh, Obs.isSetData]⟩⟩
    | initial =>
      rw [step_initial s _ hph (fun p h => by cases h) (fun j r h => by cases h)]
      exact ⟨[], by simp, Or.inl ⟨rfl, rfl⟩⟩
    | unmounted =>
      rw [step_unmounted s _ hph (fun j r h => by cases h)]
      exact ⟨[], by simp, Or.inl ⟨rfl, rfl⟩⟩
  | settle j r =>
    cases hq : s.pending j with
    | none =>
      rw [step_settle_none s j r hq]
      exact ⟨[], by simp, Or.inl ⟨rfl, rfl⟩⟩
    | some q =>
      rw [settle_pending s j q r hq]
      cases q with
      | mountFetch c oe =>
        cases r with
        | resolve d =>
          cases c with
          | false =>
            exact ⟨[Obs.setData d], by simp [settleWith, setData],
              Or.inr ⟨j, d, rfl, by simp [settleWith, setData], by simp [Obs.isSetData]⟩⟩
          | true =>
            exact ⟨[], by simp [settleWith], Or.inl ⟨by simp [settleWith], rfl⟩⟩
        | reject x =>
          exact ⟨optCall oe (fun cb => Obs.onError cb x), by simp [settleWith],
            Or.inl ⟨by simp [settleWith], any_isSetData_optCall_onError oe x⟩⟩
      | refreshFetch orr oe =>
        cases r with
        | resolve d =>
          exact ⟨[Obs.setData d] ++ optCall orr Obs.onReady, by simp [settleWith, setData],
            Or.inr ⟨j, d, rfl, by simp [settleWith, setData], by simp [Obs.isSetData]⟩⟩
        | reject x =>
          exact ⟨optCall oe (fun cb => Obs.onError cb x), by simp [settleWith],
            Or.inl ⟨by simp [settleWith], any_isSetData_optCall_onError oe x⟩⟩
  | refFn node =>
    cases hph : s.phase with
    | mounted p =>
      rw [step_refFn_mounted s p node hph]
      refine ⟨refFn (rendered p.render s.data) p.onReady node, rfl, Or.inl ⟨rfl, ?_⟩⟩
      unfold refFn
      split
      · rfl
      · split
        · rfl
        · exact any_isSetData_optCall_onReady _
    | initial =>
      rw [step_initial s _ hph (fun p h => by cases h) (fun j r h => by cases h)]
      exact ⟨[], by simp, Or.inl ⟨rfl, rfl⟩⟩
    | unmounted =>
      rw [step_unmounted s _ hph (fun j r h => by cases h)]
      exact ⟨[], by simp, Or.inl ⟨rfl, rfl⟩⟩

/-- Until some `setData` is logged, the data is the initial `DEFAULT_DATA`. -/
theorem data_default_of_no_setData (es : List Event)
    (h : (run init es).log.any Obs.isSetData = false) : (run init es).data = DEFAULT_DATA := by
  have key : ∀ s e, (s.log.any Obs.isSetData = false → s.data = DEFAULT_DATA) →
      ((step s e).log.any Obs.isSetData = false → (step s e).data = DEFAULT_DATA) := by
    intro s e hs hl
    obtain ⟨l, h1, h2⟩ := step_log_data s e
    rw [h1, List.any_append, Bool.or_eq_false_iff] at hl
    rcases h2 with ⟨hd, _⟩ | ⟨i, d, _, _, hany⟩
    · rw [hd]
      exact hs hl.1
    · rw [hl.2] at hany
      cases hany
  exact run_induction (fun s => s.log.any Obs.isSetData = false → s.data = DEFAULT_DATA)
    key init (fun _ => rfl) es h

/-- Once some `setData` is logged, the data is a fetched value. -/
theorem data_fresh_of_setData (s : State) (es : List Event)
    (hs : s.log.any Obs.isSetData = true → s.data.fresh = true)
    (hes : ∀ i d, Event.settle i (.resolve d) ∈ es → d.fresh = true)
    (h : (run s es).log.any Obs.isSetData = true) : (run s es).data.fresh = true := by
  induction es generalizing s with
  | nil => exact hs h
  | cons e es ih =>
    rw [run_cons] at h ⊢
    refine ih (step s e) ?_ (fun i d hm => hes i d (List.mem_cons_of_mem e hm)) h
    intro hl
    obtain ⟨l, h1, h2⟩ := step_log_data s e
    rcases h2 with ⟨hd, hno⟩ | ⟨i, d, he, hd, _⟩
    · rw [h1, List.any_append, hno, Bool.or_false] at hl
      rw [hd]
      exact hs hl
    · rw [hd]
      exact hes i d (by rw [he]; exact List.mem_cons_self _ _)

theorem rendererArg_eq_none_iff (render : JsVal → JsVal) (data : JsVal) :
    rendererArg render data = none ↔ ∃ fields, data = .obj defaultDataRef fields := by
  cases data <;> simp [rendererArg, JsVal.strictEq, DEFAULT_DATA]

theorem strictEq_default_of_fresh (d : JsVal) (h : d.fresh = true) :
    d.strictEq DEFAULT_DATA = false := by
  cases d <;> simp_all [JsVal.fresh, JsVal.strictEq, DEFAULT_DATA]

/-! ## The empty source on the mount path -/

theorem runEffect_empty_src (p : Props) (s : State) (h : p.src = "") : runEffect p s = s := by
  simp [runEffect, h]

theorem runCleanup_of_none (s : State) (h : s.cleanup = none) : runCleanup s = s := by
  simp [runCleanup, h]

theorem untouched_step (s : State) (e : Event) (h : Untouched s)
    (he : e.onEmptySrcMountPath = true) : Untouched (step s e) := by
  obtain ⟨hl, hd, hp, hc⟩ := h
  cases e with
  | render p =>
    have hsrc : p.src = "" := by simpa [Event.onEmptySrcMountPath] using he
    cases hph : s.phase with
    | initial =>
      rw [step_render_initial s p hph, runEffect_empty_src p _ hsrc]
      exact ⟨hl, hd, hp, hc⟩
    | mounted old =>
      rw [step_render_mounted s p old hph]
      split
      · rw [runEffect_empty_src p _ hsrc,
          runCleanup_of_none { s with phase := .mounted p } hc]
        exact ⟨hl, hd, hp, hc⟩
      · exact ⟨hl, hd, hp, hc⟩
    | unmounted =>
      rw [step_unmounted s _ hph (fun j r h => by cases h)]
      exact ⟨hl, hd, hp, hc⟩
  | unmount =>
    cases hph : s.phase with
    | mounted old =>
      rw [step_unmount_mounted s old hph,
        runCleanup_of_none { s with phase := .unmounted } hc]
      exact ⟨hl, hd, hp, hc⟩
    | initial =>
      rw [step_initial s _ hph (fun p h => by cases h) (fun j r h => by cases h)]
      exact ⟨hl, hd, hp, hc⟩
    | unmounted =>
      rw [step_unmounted s _ hph (fun j r h => by cases h)]
      exact ⟨hl, hd, hp, hc⟩
  | settle j r =>
    rw [step_settle_none s j r (hp j)]
    exact ⟨hl, hd, hp, hc⟩
  | refresh => simp [Event.onEmptySrcMountPath] at he
  | refFn node => simp [Event.onEmptySrcMountPath] at he

theorem untouched_run (s : State) (es : List Event) (h : Untouched s)
    (hes : ∀ e ∈ es, e.onEmptySrcMountPath = true) : Untouched (run s es) := by
  induction es generalizing s with
  | nil => exact h
  | cons e es ih =>
    rw [run_cons]
    exact ih (step s e) (untouched_step s e h (hes e (List.mem_cons_self e es)))
      (fun x hx => hes x (List.mem_cons_of_mem e hx))

/-! ## Cancelled fetches (C1) -/

/-- C1, evaluated on the code.  A fetch is started on mount with src "a" and
the component unmounts (or the source changes to "b") before the fetch
settles, so its cleanup has set `cancelled`.  When that fetch then rejects, the
`.catch` handler still calls `onError` with the reason: the log ends with that
call.  (A cancelled fetch that resolves does nothing: the log is unchanged.) -/
theorem cancelled_reject_still_calls_onError :
    (run init [.render (sampleProps "a" getJsonOk), .unmount]).pending 0
        = some (.mountFetch true (some 13)) ∧
    (run init [.render (sampleProps "a" getJsonOk), .unmount,
        .settle 0 (.reject (.str "late"))]).log
      = [.onLoading 10, .getJson 1 "a" none, .onError 13 (.str "late")] ∧
    (run init [.render (sampleProps "a" getJsonOk), .render (sampleProps "b" getJsonOk),
        .settle 0 (.reject (.str "late"))]).log
      = [.onLoading 10, .getJson 1 "a" none, .onLoading 10, .getJson 1 "b" none,
          .onError 13 (.str "late")] ∧
    (run init [.render (sampleProps "a" getJsonOk), .unmount,
        .settle 0 (.resolve (.num 1))]).log
      = [.onLoading 10, .getJson 1 "a" none] := by
  refine ⟨rfl, rfl, rfl, rfl⟩

/-- X1.  What does hold of a superseded fetch.  In any reachable state, an
effect-started fetch that is pending and is not the one whose cleanup is
registered has `cancelled` set; when it settles, whether it resolves or
rejects, the data is left as it is and no `setData` is logged, and when it
resolves the log is left as it is.  After an unmount no cleanup is registered,
so this covers every fetch pending then. -/
theorem superseded_fetch_never_updates_data (es : List Event) (i : Nat) (c : Bool)
    (oe : Option Nat) (r : Settle)
    (hi : (run init es).pending i = some (.mountFetch c oe))
    (hc : (run init es).cleanup ≠ some i) :
    c = true ∧
    (step (run init es) (.settle i r)).data = (run init es).data ∧
    (step (run init es) (.settle i r)).log.any Obs.isSetData
      = (run init es).log.any Obs.isSetData ∧
    (∀ d, r = .resolve d → (step (run init es) (.settle i r)).log = (run init es).log) ∧
    (run init (es ++ [.unmount])).cleanup = none := by
  have hw := wf_run es
  have hct : c = true := hw.2.2.1 i c oe hi hc
  subst hct
  rw [settle_pending _ i _ r hi]
  refine ⟨rfl, ?_, ?_, ?_, ?_⟩
  · cases r <;> simp [settleWith]
  · cases r <;> simp [settleWith, any_isSetData_optCall_onError]
  · intro d hd
    subst hd
    simp [settleWith]
  · rw [run_append, run_cons, run_nil]
    cases hph : (run init es).phase with
    | mounted old =>
      rw [step_unmount_mounted _ old hph]
      exact runCleanup_cleanup _
    | initial =>
      rw [step_initial _ _ hph (fun p h => by cases h) (fun j r h => by cases h)]
      exact hw.2.2.2 (fun q hq => by rw [hph] at hq; cases hq)
    | unmounted =>
      rw [step_unmounted _ _ hph (fun j r h => by cases h)]
      exact hw.2.2.2 (fun q hq => by rw [hph] at hq; cases hq)

/-- Witness for X1: the fetch for "a" is pending at the unmount and resolves later. -/
theorem superseded_fetch_never_updates_data_witness :
    (run init [.render (sampleProps "a" getJsonOk), .unmount]).pending 0
      = some (.mountFetch true (some 13)) ∧
    (step (run init [.render (sampleProps "a" getJsonOk), .unmount])
        (.settle 0 (.resolve (.num 1)))).data
      = (run init [.render (sampleProps "a" getJsonOk), .unmount]).data :=
  ⟨rfl, (superseded_fetch_never_updates_data
    [.render (sampleProps "a" getJsonOk), .unmount] 0 true (some 13) (.resolve (.num 1))
    rfl (by simp [run, step, runEffect, runCleanup, sampleProps, getJsonOk, init])).2.1⟩

/-! ## Last started wins (C2) -/

/-- C2.  Take any history `es1`, then a render that starts a new fetch (the
source identifier changed to a non-empty one), then any further events `es2`.
A fetch the effect had started before that render, whenever it resolves
afterwards, calls no `setData`: data and log are left as they are.  Moreover,
at that point, an effect-started fetch whose resolution does change the log is
the one whose cleanup is registered (the most recently started one) and its
`cancelled` is not set. -/
theorem stale_fetch_never_sets_data (es1 es2 : List Event) (p : Props) (i : Nat)
    (c : Bool) (oe : Option Nat) (d : JsVal)
    (hstart : (step (run init es1) (.render p)).nextId = (run init es1).nextId + 1)
    (hi : (run init es1).pending i = some (.mountFetch c oe)) :
    (step (run (step (run init es1) (.render p)) es2) (.settle i (.resolve d))).data
        = (run (step (run init es1) (.render p)) es2).data ∧
    (step (run (step (run init es1) (.render p)) es2) (.settle i (.resolve d))).log
        = (run (step (run init es1) (.render p)) es2).log ∧
    ∀ (j : Nat) (cj : Bool) (oj : Option Nat) (dj : JsVal),
      (run (step (run init es1) (.render p)) es2).pending j = some (.mountFetch cj oj) →
      (step (run (step (run init es1) (.render p)) es2) (.settle j (.resolve dj))).log
        ≠ (run (step (run init es1) (.render p)) es2).log →
      (run (step (run init es1) (.render p)) es2).cleanup = some j ∧ cj = false := by
  have hw1 : WF (run init es1) := wf_run es1
  have hw2 : WF (step (run init es1) (.render p)) := wf_step _ _ hw1
  have hlt : i < (run init es1).nextId := hw1.1 i _ hi
  have hcl : (step (run init es1) (.render p)).cleanup = some (run init es1).nextId := by
    rcases step_start _ _ hstart with ⟨q, hq, _, _, h⟩ | ⟨q, hq, _⟩
    · exact h
    · cases hq
  have hstale : Stale i (step (run init es1) (.render p)) := by
    refine ⟨lt_of_lt_of_le hlt (le_nextId_step _ _), ?_⟩
    intro q hq
    rcases step_pending (run init es1) (.render p) i with a | ⟨_, b⟩ | ⟨e, _⟩ | ⟨e, _⟩
    · rw [a, hi] at hq
      cases hq
      have : c = true := by
        refine hw2.2.2.1 i c oe (by rw [a, hi]) ?_
        rw [hcl]
        intro h
        simp only [Option.some.injEq] at h
        omega
      exact ⟨oe, by rw [this]⟩
    · rw [b, hi] at hq
      simp only [Option.map_some', Handlers.cancel, Option.some.injEq] at hq
      exact ⟨oe, hq.symm⟩
    · omega
    · simp [Event.settles] at e
  have hfin := stale_resolve i _ d (stale_run i _ es2 hstale)
  refine ⟨hfin.1, hfin.2, ?_⟩
  intro j cj oj dj hj hne
  have hw3 : WF (run (step (run init es1) (.render p)) es2) := by
    have := wf_run (es1 ++ [.render p] ++ es2)
    rw [run_append, run_append] at this
    exact this
  by_cases hcj : cj = true
  · subst hcj
    refine absurd ?_ hne
    rw [settle_pending _ j _ _ hj]
    simp [settleWith]
  · have hcf : cj = false := by
      cases cj
      · rfl
      · exact absurd rfl hcj
    refine ⟨?_, hcf⟩
    by_contra hcu
    exact hcj (hw3.2.2.1 j cj oj hj hcu)

/-- Witness for C2: the fetch for "a" is superseded by the fetch for "b"; "b"
resolves with 2, then "a" resolves with 1, and the data stays 2. -/
theorem stale_fetch_never_sets_data_witness :
    (step (run init [.render (sampleProps "a" getJsonOk)])
        (.render (sampleProps "b" getJsonOk))).nextId
      = (run init [.render (sampleProps "a" getJsonOk)]).nextId + 1 ∧
    (run init [.render (sampleProps "a" getJsonOk)]).pending 0
      = some (.mountFetch false (some 13)) ∧
    (run init [.render (sampleProps "a" getJsonOk), .render (sampleProps "b" getJsonOk),
      .settle 1 (.resolve (.num 2)), .settle 0 (.resolve (.num 1))]).log
      = [.onLoading 10, .getJson 1 "a" none, .onLoading 10, .getJson 1 "b" none,
          .setData (.num 2)] ∧
    (step (run (step (run init [.render (sampleProps "a" getJsonOk)])
        (.render (sampleProps "b" getJsonOk))) [.settle 1 (.resolve (.num 2))])
        (.settle 0 (.resolve (.num 1)))).data
      = (run (step (run init [.render (sampleProps "a" getJsonOk)])
        (.render (sampleProps "b" getJsonOk))) [.settle 1 (.resolve (.num 2))]).data :=
  ⟨rfl, rfl, rfl,
    (stale_fetch_never_sets_data [.render (sampleProps "a" getJsonOk)]
      [.settle 1 (.resolve (.num 2))] (sampleProps "b" getJsonOk) 0 false (some 13) (.num 1)
      rfl rfl).1⟩

/-! ## Empty source (C3) -/

/-- C3, evaluated on the code.  With src the empty string the effect does
nothing, but `refresh()` has no such guard: it calls `getJson("", true)`, and
when that promise resolves it stores the data and calls `onReady`; when it
rejects it calls `onError`. -/
theorem empty_src_refresh_fetches :
    (run init [.render (sampleProps "" getJsonOk)]).log = [] ∧
    (run init [.render (sampleProps "" getJsonOk), .refresh]).log
      = [.onRefresh 12, .getJson 1 "" (some true)] ∧
    (run init [.render (sampleProps "" getJsonOk), .refresh,
        .settle 0 (.resolve (.num 1))]).log
      = [.onRefresh 12, .getJson 1 "" (some true), .setData (.num 1), .onReady 11] ∧
    (run init [.render (sampleProps "" getJsonOk), .refresh,
        .settle 0 (.reject (.str "bad"))]).log
      = [.onRefresh 12, .getJson 1 "" (some true), .onError 13 (.str "bad")] := by
  refine ⟨rfl, rfl, rfl, rfl⟩

/-- X2.  What does hold for the empty source.  A component that is only ever
rendered with src "" and never refreshed, through any sequence of renders,
unmount and settlements, calls nothing at all (no `getJson`, no callback, no
`setData`): its log stays empty and its data stays `DEFAULT_DATA`. -/
theorem empty_src_mount_path_is_silent (es : List Event)
    (hes : ∀ e ∈ es, e.onEmptySrcMountPath = true) :
    (run init es).log = [] ∧ (run init es).data = DEFAULT_DATA := by
  have h := untouched_run init es ⟨rfl, rfl, fun _ => rfl, rfl⟩ hes
  exact ⟨h.1, h.2.1⟩

/-- Witness for X2: mount with src "", a re-render with another `getJson`, unmount. -/
theorem empty_src_mount_path_is_silent_witness :
    (run init [.render (sampleProps "" getJsonOk), .render (sampleProps "" getJsonThrowing),
      .unmount]).log = [] :=
  (empty_src_mount_path_is_silent
    [.render (sampleProps "" getJsonOk), .render (sampleProps "" getJsonThrowing), .unmount]
    (by
      intro e he
      simp only [List.mem_cons, List.mem_singleton, List.not_mem_nil, or_false] at he
      rcases he with rfl | rfl | rfl <;> rfl)).1

/-! ## Rejections (C4) -/

/-- C4.  Let the event `ev` start a fetch, in either path: a render whose
effect calls `getJson(src)`, or a call of `refresh()`; `p` are the props in
force then.  After any events that do not settle that promise, if it rejects
with reason `e`: the data is what it was before, the log gains nothing but the
call of `onError` with `e` (exactly one call when `onError` is supplied, and no
`setData`), and from then on the promise is settled, so it never calls anything
again.  (The `.catch` handler does not look at `cancelled`, so this holds of
every fetch; the claim is about the ones that were not cancelled.) -/
theorem reject_reports_onError_once (s : State) (ev : Event) (p : Props) (es : List Event)
    (e : JsVal)
    (hstart : (step s ev).nextId = s.nextId + 1)
    (hp : ev.propsAt s = some p)
    (hes : ∀ x ∈ es, x.settles s.nextId = false) :
    (step (run (step s ev) es) (.settle s.nextId (.reject e))).data
      = (run (step s ev) es).data ∧
    (step (run (step s ev) es) (.settle s.nextId (.reject e))).log
      = (run (step s ev) es).log ++ optCall p.onError (fun c => Obs.onError c e) ∧
    (∀ cb, p.onError = some cb →
      (step (run (step s ev) es) (.settle s.nextId (.reject e))).log
        = (run (step s ev) es).log ++ [Obs.onError cb e]) ∧
    (∀ (fs : List Event) (r : Settle),
      step (run (step (run (step s ev) es) (.settle s.nextId (.reject e))) fs)
          (.settle s.nextId r)
        = run (step (run (step s ev) es) (.settle s.nextId (.reject e))) fs) := by
  have haw : ∃ q : Handlers, q.onError = p.onError ∧ Awaits s.nextId q (step s ev) := by
    rcases step_start s ev hstart with ⟨q, rfl, _, hpend, _⟩ | ⟨q, rfl, hph, hpend⟩
    · simp only [Event.propsAt, Option.some.injEq] at hp
      subst hp
      exact ⟨.mountFetch false q.onError, rfl, by omega, Or.inl hpend⟩
    · simp only [Event.propsAt, hph, Option.some.injEq] at hp
      subst hp
      exact ⟨.refreshFetch q.onReady q.onError, rfl, by omega, Or.inl hpend⟩
  obtain ⟨q, hq, haw⟩ := haw
  have h := reject_of_awaits s.nextId q _ e (awaits_run s.nextId q _ es haw hes)
  rw [hq] at h
  refine ⟨h.1, h.2.1, ?_, ?_⟩
  · intro cb hcb
    rw [h.2.1, hcb]
    rfl
  · intro fs r
    exact settled_settle _ _ r (settled_run _ _ fs h.2.2)

/-- Witness for C4: the fetch started on mount for "a" rejects with "bad". -/
theorem reject_reports_onError_once_witness :
    (run init [.render (sampleProps "a" getJsonOk), .settle 0 (.reject (.str "bad"))]).log
      = [.onLoading 10, .getJson 1 "a" none, .onError 13 (.str "bad")] ∧
    (step (run (step init (.render (sampleProps "a" getJsonOk))) [])
        (.settle init.nextId (.reject (.str "bad")))).data
      = (run (step init (.render (sampleProps "a" getJsonOk))) []).data :=
  ⟨rfl, (reject_reports_onError_once init (.render (sampleProps "a" getJsonOk))
    (sampleProps "a" getJsonOk) [] (.str "bad") rfl rfl (by simp)).1⟩

/-! ## The refresh handle (C5) -/

/-- C5.  In a mounted component with props `p`, `refresh()` first calls
`onRefresh`, then calls `getJson` once with `(src, true)`, whatever `src` is,
and changes neither data nor props.  When `getJson` returns a promise: after
any events that do not settle it, if it resolves with `d` the data becomes `d`
and then `onReady` is called; if it rejects with `e`, `onError` is called with
`e`, `onReady` is not, and the data stays. -/
theorem refresh_contract (s : State) (p : Props) (es : List Event) (d e : JsVal)
    (hph : s.phase = .mounted p)
    (hes : ∀ x ∈ es, x.settles s.nextId = false) :
    (step s .refresh).log
      = s.log ++ optCall p.onRefresh Obs.onRefresh ++
          [Obs.getJson p.getJson.ident p.src (some true)] ++
          (match p.getJson.throwsOn p.src (some true) with
            | some x => [Obs.threw x]
            | none => []) ∧
    (step s .refresh).data = s.data ∧
    (step s .refresh).phase = .mounted p ∧
    (p.getJson.throwsOn p.src (some true) = none →
      (step (run (step s .refresh) es) (.settle s.nextId (.resolve d))).data = d ∧
      (step (run (step s .refresh) es) (.settle s.nextId (.resolve d))).log
        = (run (step s .refresh) es).log ++ [Obs.setData d] ++ optCall p.onReady Obs.onReady ∧
      (step (run (step s .refresh) es) (.settle s.nextId (.reject e))).data
        = (run (step s .refresh) es).data ∧
      (step (run (step s .refresh) es) (.settle s.nextId (.reject e))).log
        = (run (step s .refresh) es).log ++ optCall p.onError (fun c => Obs.onError c e)) := by
  refine ⟨?_, ?_, ?_, ?_⟩
  · simp only [step, hph, refresh]
    cases p.getJson.throwsOn p.src (some true) <;> simp
  · simp only [step, hph, refresh]
    cases p.getJson.throwsOn p.src (some true) <;> rfl
  · simp only [step, hph, refresh]
    cases p.getJson.throwsOn p.src (some true) <;> rfl
  · intro ht
    have haw : Awaits s.nextId (.refreshFetch p.onReady p.onError) (step s .refresh) := by
      simp only [step, hph, refresh, ht]
      exact ⟨Nat.lt_succ_self _, Or.inl (by simp [setAt])⟩
    have haw2 := awaits_run _ _ _ es haw hes
    have h1 := resolve_of_awaits_refresh _ _ _ _ d haw2
    have h2 := reject_of_awaits _ _ _ e haw2
    exact ⟨h1.1, h1.2.1, h2.1, h2.2.1⟩

/-- Witness for C5: a refresh of a component mounted with src "a", while the
fetch of the mount is still pending; the refresh promise resolves with 7. -/
theorem refresh_contract_witness :
    (run init [.render (sampleProps "a" getJsonOk), .refresh,
        .settle 1 (.resolve (.num 7))]).log
      = [.onLoading 10, .getJson 1 "a" none, .onRefresh 12, .getJson 1 "a" (some true),
          .setData (.num 7), .onReady 11] ∧
    (step (run init [.render (sampleProps "a" getJsonOk)]) .refresh).data
      = (run init [.render (sampleProps "a" getJsonOk)]).data :=
  ⟨rfl, (refresh_contract (run init [.render (sampleProps "a" getJsonOk)])
    (sampleProps "a" getJsonOk) [] (.num 7) (.str "bad") rfl (by simp)).2.1⟩

/-! ## Failures of the fetch (C8) -/

/-- C8 as stated fails: a `getJson` that throws before it returns a promise is
not caught.  On mount the exception leaves the effect, and in `refresh()` it
leaves the call; `onError` is not called in either case. -/
theorem sync_throw_is_not_caught :
    (run init [.render (sampleProps "a" getJsonThrowing)]).log
      = [.onLoading 10, .getJson 2 "a" none, .threw (.str "boom")] ∧
    (run init [.render (sampleProps "a" getJsonThrowingOnRefresh), .refresh]).log
      = [.onLoading 10, .getJson 3 "a" none, .onRefresh 12, .getJson 3 "a" (some true),
          .threw (.str "boom")] ∧
    (run init [.render (sampleProps "a" getJsonThrowing)]).log.any Obs.isThrew = true ∧
    (run init [.render (sampleProps "a" getJsonThrowing)]).log.any Obs.isOnError = false ∧
    (run init [.render (sampleProps "a" getJsonThrowingOnRefresh), .refresh]).log.any
      Obs.isThrew = true ∧
    (run init [.render (sampleProps "a" getJsonThrowingOnRefresh), .refresh]).log.any
      Obs.isOnError = false := by
  refine ⟨rfl, rfl, rfl, rfl, rfl, rfl⟩

/-- C8, amended.  In every history in which each `getJson` handed to the
component returns a promise on every call, nothing is ever thrown out of the
effect or out of `refresh()`; and the rejection of any promise, in either
path, with reason `e` leaves the data as it is and adds to the log nothing but
calls of `onError` with `e`. -/
theorem rejection_reported_through_onError (es : List Event) (i : Nat) (e : JsVal)
    (hes : ∀ p, Event.render p ∈ es → ∀ src flag, p.getJson.throwsOn src flag = none) :
    (run init es).log.any Obs.isThrew = false ∧
    (step (run init es) (.settle i (.reject e))).log.any Obs.isThrew = false ∧
    (step (run init es) (.settle i (.reject e))).data = (run init es).data ∧
    ∃ calls, (step (run init es) (.settle i (.reject e))).log = (run init es).log ++ calls ∧
      ∀ o ∈ calls, ∃ cb, o = Obs.onError cb e := by
  have h0 : NoThrow init := ⟨rfl, fun p hp => by cases hp⟩
  have h1 := noThrow_run init es h0 hes
  have h2 := noThrow_step _ (.settle i (.reject e)) h1 (fun p hp => by cases hp)
  refine ⟨h1.1, h2.1, ?_⟩
  cases hq : (run init es).pending i with
  | none =>
    refine ⟨by simp [step, hq], [], by simp [step, hq], ?_⟩
    intro o ho
    cases ho
  | some q =>
    rw [settle_pending _ i q _ hq]
    cases q with
    | mountFetch c oe =>
      refine ⟨rfl, optCall oe (fun cb => Obs.onError cb e), rfl, ?_⟩
      intro o ho
      cases oe with
      | none => cases ho
      | some cb => exact ⟨cb, by simpa [optCall] using ho⟩
    | refreshFetch orr oe =>
      refine ⟨rfl, optCall oe (fun cb => Obs.onError cb e), rfl, ?_⟩
      intro o ho
      cases oe with
      | none => cases ho
      | some cb => exact ⟨cb, by simpa [optCall] using ho⟩

/-- Witness for C8, amended: the fetch of the mount rejects with "bad". -/
theorem rejection_reported_through_onError_witness :
    (run init [.render (sampleProps "a" getJsonOk), .settle 0 (.reject (.str "bad"))]).log
      = [.onLoading 10, .getJson 1 "a" none, .onError 13 (.str "bad")] ∧
    (run init [.render (sampleProps "a" getJsonOk)]).log.any Obs.isThrew = false :=
  ⟨rfl, (rejection_reported_through_onError [.render (sampleProps "a" getJsonOk)] 0
    (.str "bad") (by
      intro p hp src flag
      simp only [List.mem_singleton, Event.render.injEq] at hp
      subst hp
      rfl)).1⟩

/-! ## Refreshing twice (C9) -/

/-- C9.  In a mounted component whose `getJson` returns promises that all
resolve with the same `d`: two calls of `refresh()` in immediate succession,
with the two promises resolving in either order, leave the data equal to `d`
and the element returned equal to the one a single `refresh()` leaves, while
the log gains the calls of `onRefresh` and `getJson` twice and `setData d`
followed by `onReady` twice: with the callbacks supplied, two calls of
`onRefresh` and two of `onReady` instead of one of each. -/
theorem refresh_twice_same_data (s : State) (p : Props) (d : JsVal)
    (hph : s.phase = .mounted p)
    (ht : p.getJson.throwsOn p.src (some true) = none) :
    (run s [.refresh, .settle s.nextId (.resolve d)]).data = d ∧
    (run s [.refresh, .refresh, .settle s.nextId (.resolve d),
      .settle (s.nextId + 1) (.resolve d)]).data = d ∧
    (run s [.refresh, .refresh, .settle (s.nextId + 1) (.resolve d),
      .settle s.nextId (.resolve d)]).data = d ∧
    view p (run s [.refresh, .refresh, .settle s.nextId (.resolve d),
        .settle (s.nextId + 1) (.resolve d)]).data
      = view p (run s [.refresh, .settle s.nextId (.resolve d)]).data ∧
    (run s [.refresh, .settle s.nextId (.resolve d)]).log
      = s.log ++ (optCall p.onRefresh Obs.onRefresh ++
            [Obs.getJson p.getJson.ident p.src (some true)]) ++
          ([Obs.setData d] ++ optCall p.onReady Obs.onReady) ∧
    (run s [.refresh, .refresh, .settle s.nextId (.resolve d),
        .settle (s.nextId + 1) (.resolve d)]).log
      = s.log ++ (optCall p.onRefresh Obs.onRefresh ++
            [Obs.getJson p.getJson.ident p.src (some true)]) ++
          (optCall p.onRefresh Obs.onRefresh ++
            [Obs.getJson p.getJson.ident p.src (some true)]) ++
          ([Obs.setData d] ++ optCall p.onReady Obs.onReady) ++
          ([Obs.setData d] ++ optCall p.onReady Obs.onReady) ∧
    (run s [.refresh, .refresh, .settle (s.nextId + 1) (.resolve d),
        .settle s.nextId (.resolve d)]).log
      = (run s [.refresh, .refresh, .settle s.nextId (.resolve d),
        .settle (s.nextId + 1) (.resolve d)]).log ∧
    (∀ a b, p.onRefresh = some a → p.onReady = some b →
      ((run s [.refresh, .settle s.nextId (.resolve d)]).log.drop s.log.length).countP
          Obs.isOnRefresh = 1 ∧
      ((run s [.refresh, .settle s.nextId (.resolve d)]).log.drop s.log.length).countP
          Obs.isOnReady = 1 ∧
      ((run s [.refresh, .refresh, .settle s.nextId (.resolve d),
          .settle (s.nextId + 1) (.resolve d)]).log.drop s.log.length).countP
          Obs.isOnRefresh = 2 ∧
      ((run s [.refresh, .refresh, .settle s.nextId (.resolve d),
          .settle (s.nextId + 1) (.resolve d)]).log.drop s.log.length).countP
          Obs.isOnReady = 2) := by
  have once : run s [.refresh, .settle s.nextId (.resolve d)]
      = { s with
          data := d
          pending := setAt (setAt s.pending s.nextId (some (.refreshFetch p.onReady p.onError)))
            s.nextId none
          nextId := s.nextId + 1
          log := s.log ++ optCall p.onRefresh Obs.onRefresh ++
            [Obs.getJson p.getJson.ident p.src (some true)] ++ [Obs.setData d] ++
            optCall p.onReady Obs.onReady } := by
    simp [run, step, hph, refresh, ht, setAt, settleWith, setData]
  have twiceLog : (run s [.refresh, .refresh, .settle s.nextId (.resolve d),
        .settle (s.nextId + 1) (.resolve d)]).log
      = s.log ++ (optCall p.onRefresh Obs.onRefresh ++
            [Obs.getJson p.getJson.ident p.src (some true)]) ++
          (optCall p.onRefresh Obs.onRefresh ++
            [Obs.getJson p.getJson.ident p.src (some true)]) ++
          ([Obs.setData d] ++ optCall p.onReady Obs.onReady) ++
          ([Obs.setData d] ++ optCall p.onReady Obs.onReady) := by
    simp [run, step, hph, refresh, ht, setAt, settleWith, setData]
  have twiceData : (run s [.refresh, .refresh, .settle s.nextId (.resolve d),
        .settle (s.nextId + 1) (.resolve d)]).data = d := by
    simp [run, step, hph, refresh, ht, setAt, settleWith, setData]
  have onceLog : (run s [.refresh, .settle s.nextId (.resolve d)]).log
      = s.log ++ (optCall p.onRefresh Obs.onRefresh ++
            [Obs.getJson p.getJson.ident p.src (some true)]) ++
          ([Obs.setData d] ++ optCall p.onReady Obs.onReady) := by
    rw [once]
    simp
  refine ⟨by rw [once], twiceData, ?_, ?_, onceLog, twiceLog, ?_, ?_⟩
  · simp [run, step, hph, refresh, ht, setAt, settleWith, setData]
  · rw [twiceData, once]
  · rw [twiceLog]
    simp [run, step, hph, refresh, ht, setAt, settleWith, setData]
  · intro a b ha hb
    rw [onceLog, twiceLog, ha, hb]
    simp [optCall, List.append_assoc, Obs.isOnRefresh, Obs.isOnReady, List.countP_cons]

/-- Witness for C9: two refreshes of a component mounted with src "a" whose
mount fetch is still pending, both refresh promises resolving with 5. -/
theorem refresh_twice_same_data_witness :
    (run init [.render (sampleProps "a" getJsonOk), .refresh, .refresh,
        .settle 1 (.resolve (.num 5)), .settle 2 (.resolve (.num 5))]).log
      = [.onLoading 10, .getJson 1 "a" none,
          .onRefresh 12, .getJson 1 "a" (some true), .onRefresh 12, .getJson 1 "a" (some true),
          .setData (.num 5), .onReady 11, .setData (.num 5), .onReady 11] ∧
    (run (run init [.render (sampleProps "a" getJsonOk)])
        [.refresh, .settle (run init [.render (sampleProps "a" getJsonOk)]).nextId
          (.resolve (.num 5))]).data = .num 5 :=
  ⟨rfl, (refresh_twice_same_data (run init [.render (sampleProps "a" getJsonOk)])
    (sampleProps "a" getJsonOk) (.num 5) rfl rfl).1⟩

/-! ## The sentinel (C6) -/

/-- C6.  The first argument of `useRenderer` is null exactly when the data is
the object `DEFAULT_DATA` itself (same reference), and the render function
otherwise.  In every history in which no `setData` happened the data is still
`DEFAULT_DATA`, the renderer receives null and the render output is null.  In
every history in which a `setData` happened (fetched values being objects of
their own) the renderer receives the render function, and the render output is
what it returns on the data, also when the fetched value is an empty object,
equal to `DEFAULT_DATA` by content. -/
theorem render_used_iff_not_default (render : JsVal → JsVal) (es : List Event) :
    (∀ data, rendererArg render data = none ↔ ∃ fields, data = .obj defaultDataRef fields) ∧
    (∀ data, (rendererArg render data).isSome = true ↔
      ¬ ∃ fields, data = .obj defaultDataRef fields) ∧
    ((run init es).log.any Obs.isSetData = false →
      (run init es).data = DEFAULT_DATA ∧
      rendererArg render (run init es).data = none ∧
      rendered render (run init es).data = .null) ∧
    ((∀ i d, Event.settle i (.resolve d) ∈ es → d.fresh = true) →
      (run init es).log.any Obs.isSetData = true →
      (rendererArg render (run init es).data).isSome = true ∧
      rendered render (run init es).data = render (run init es).data) ∧
    JsVal.fieldsOf (.obj 7 []) = JsVal.fieldsOf DEFAULT_DATA ∧
    (run init [.render (sampleProps "a" getJsonOk), .settle 0 (.resolve (.obj 7 []))]).data
      = .obj 7 [] ∧
    (rendererArg render (.obj 7 [])).isSome = true ∧
    rendered render (.obj 7 []) = render (.obj 7 []) ∧
    rendered render init.data = .null := by
  refine ⟨rendererArg_eq_none_iff render, ?_, ?_, ?_, rfl, rfl, rfl, rfl, rfl⟩
  · intro data
    rw [← rendererArg_eq_none_iff render data]
    cases rendererArg render data <;> simp
  · intro h
    have hd := data_default_of_no_setData es h
    rw [hd]
    exact ⟨rfl, rfl, rfl⟩
  · intro hes h
    have hf := data_fresh_of_setData init es (fun h0 => by cases h0) hes h
    have hne := strictEq_default_of_fresh _ hf
    simp [rendered, rendererArg, hne, useRenderer]

/-! ## Markup or children (C7) -/

/-- The three-part test of lines 111-112 holds exactly of an object that has
the key `__html`. -/
theorem isHtml_iff (r : JsVal) :
    isHtml r = true ↔ ∃ ref fields v, r = .obj ref fields ∧ ("__html", v) ∈ fields := by
  cases r with
  | obj ref fields =>
    simp only [isHtml, JsVal.truthy, JsVal.typeofObject, JsVal.hasKey, Bool.true_and,
      List.any_eq_true, decide_eq_true_eq]
    constructor
    · rintro ⟨⟨k, v⟩, hmem, hk⟩
      cases hk
      exact ⟨ref, fields, v, rfl, hmem⟩
    · rintro ⟨ref1, fields1, v, heq, hmem⟩
      cases heq
      exact ⟨("__html", v), hmem, rfl⟩
  | _ => simp [isHtml, JsVal.truthy, JsVal.typeofObject, JsVal.hasKey]

/-- C7.  For every render output `r`: when `r` is an object with the key
`__html`, the wrapper receives `r` as dangerouslySetInnerHTML and null as
children; otherwise it receives `r` as children and null as
dangerouslySetInnerHTML; the two are never both different from null.  The
output of `(d) => d.value` on the data with value "x" is the string "x", passed
as children; an object with `__html` set to "<b>x</b>" is passed as markup. -/
theorem wrapper_markup_xor_children (a : String) (r : JsVal) :
    ((∃ ref fields v, r = .obj ref fields ∧ ("__html", v) ∈ fields) →
      (wrapperProps a r).dangerouslySetInnerHTML = r ∧ (wrapperProps a r).children = .null) ∧
    ((¬ ∃ ref fields v, r = .obj ref fields ∧ ("__html", v) ∈ fields) →
      (wrapperProps a r).children = r ∧ (wrapperProps a r).dangerouslySetInnerHTML = .null) ∧
    ((wrapperProps a r).dangerouslySetInnerHTML = .null ∨ (wrapperProps a r).children = .null) ∧
    (wrapperProps a r).ariaLive = a ∧
    JsVal.getProp "value" (.obj 5 [("value", .str "x")]) = .str "x" ∧
    wrapperProps a (.str "x")
      = { dangerouslySetInnerHTML := .null, ariaLive := a, children := .str "x" } ∧
    wrapperProps a (.obj 6 [("__html", .str "<b>x</b>")])
      = { dangerouslySetInnerHTML := .obj 6 [("__html", .str "<b>x</b>")], ariaLive := a,
          children := .null } := by
  refine ⟨?_, ?_, ?_, rfl, rfl, rfl, rfl⟩
  · intro h
    have hh : isHtml r = true := (isHtml_iff r).2 h
    simp [wrapperProps, hh]
  · intro h
    have hh : isHtml r = false := by
      cases hc : isHtml r
      · rfl
      · exact absurd ((isHtml_iff r).1 hc) h
    simp [wrapperProps, hh]
  · cases hc : isHtml r <;> simp [wrapperProps, hc]

/-! ## The ref callback (C10) -/

/-- The node has a first element child exactly when one of its children is an element. -/
theorem firstElementChild_isSome_iff (n : Node) :
    (n.firstElementChild).isSome = true ↔ ∃ tag, Child.element tag ∈ n.children := by
  unfold Node.firstElementChild
  rw [List.find?_isSome]
  constructor
  · rintro ⟨c, hc, hp⟩
    cases c with
    | element tag => exact ⟨tag, hc⟩
    | text t => simp at hp
  · rintro ⟨tag, hc⟩
    exact ⟨_, hc, rfl⟩

/-- C10.  Called with a supplied `onReady`, the ref callback calls it exactly
once when the node is not null, one of its children is an element and the
render output is truthy, and makes no call otherwise; in a mounted component
the callback used is the current `onReady` and the render output the current
one.  A null node, a node with only text, and a null render output give no
call. -/
theorem refFn_calls_onReady_iff (r : JsVal) (cb : Nat) (node : Option Node) :
    (refFn r (some cb) node = [Obs.onReady cb] ↔
      ∃ n, node = some n ∧ (∃ tag, Child.element tag ∈ n.children) ∧ r.truthy = true) ∧
    (refFn r (some cb) node = [] ↔
      ¬ ∃ n, node = some n ∧ (∃ tag, Child.element tag ∈ n.children) ∧ r.truthy = true) ∧
    (∀ (s : State) (p : Props), s.phase = .mounted p →
      (step s (.refFn node)).log = s.log ++ refFn (rendered p.render s.data) p.onReady node ∧
      (step s (.refFn node)).data = s.data) ∧
    refFn r (some cb) none = [] ∧
    refFn r (some cb) (some { children := [.text "plain"] }) = [] ∧
    refFn .null (some cb) (some { children := [.element "div"] }) = [] ∧
    refFn (.str "") (some cb) (some { children := [.element "div"] }) = [] ∧
    refFn (.str "x") (some cb) (some { children := [.text "t", .element "div"] })
      = [Obs.onReady cb] := by
  have yes : ∀ n : Node, (∃ tag, Child.element tag ∈ n.children) → r.truthy = true →
      refFn r (some cb) (some n) = [Obs.onReady cb] := by
    intro n hc ht
    have h1 : (n.firstElementChild).isNone = false := by
      have := (firstElementChild_isSome_iff n).2 hc
      cases hf : n.firstElementChild <;> simp_all
    simp [refFn, h1, ht, optCall]
  have no : ∀ n : Node, ¬ ((∃ tag, Child.element tag ∈ n.children) ∧ r.truthy = true) →
      refFn r (some cb) (some n) = [] := by
    intro n hc
    by_cases he : ∃ tag, Child.element tag ∈ n.children
    · have ht : r.truthy = false := by
        cases hr : r.truthy
        · rfl
        · exact absurd ⟨he, hr⟩ hc
      simp [refFn, ht]
    · have h1 : (n.firstElementChild).isNone = true := by
        cases hf : n.firstElementChild
        · rfl
        · exact absurd ((firstElementChild_isSome_iff n).1 (by simp [hf])) he
      simp [refFn, h1]
  refine ⟨?_, ?_, ?_, rfl, rfl, rfl, rfl, rfl⟩
  · cases node with
    | none => simp [refFn]
    | some n =>
      by_cases hc : (∃ tag, Child.element tag ∈ n.children) ∧ r.truthy = true
      · rw [yes n hc.1 hc.2]
        exact ⟨fun _ => ⟨n, rfl, hc.1, hc.2⟩, fun _ => rfl⟩
      · rw [no n hc]
        constructor
        · intro h
          cases h
        · rintro ⟨m, hm, h1, h2⟩
          cases hm
          exact absurd ⟨h1, h2⟩ hc
  · cases node with
    | none => simp [refFn]
    | some n =>
      by_cases hc : (∃ tag, Child.element tag ∈ n.children) ∧ r.truthy = true
      · rw [yes n hc.1 hc.2]
        constructor
        · intro h
          cases h
        · intro h
          exact absurd ⟨n, rfl, hc.1, hc.2⟩ h
      · rw [no n hc]
        refine ⟨fun _ => ?_, fun _ => rfl⟩
        rintro ⟨m, hm, h1, h2⟩
        cases hm
        exact absurd ⟨h1, h2⟩ hc
  · intro s p hp
    simp [step, hp]

end AmpRender
